import Mathlib

/-!
Verification development for the TimeAPI repository (src/src/main.rs).

The core under verification is the time cache in impl AppContext:
fast_get_time_from_cache, get_time_from_ntp, update_and_return_new_time and
get_time, together with the chrono calendar arithmetic they rely on
(Utc.timestamp_opt, DateTime::checked_sub_months, DateTime::checked_add_signed).

Modelling conventions of the shallow embedding:
- DateTime(Utc) values are integers: seconds since the Unix epoch; chrono
  limits them to the closed range [minTs, maxTs] (years -262143 to 262142),
  and the fallible chrono operations return none outside that range.
- SystemTime values are natural numbers: the local clock reading in whole
  seconds; Duration::as_secs discards fractional seconds, which the
  whole-second clock model reflects.  SystemTime::duration_since errs
  when the argument is later than the receiver, modelled by an explicit
  order test.
- The u64-to-i64 cast `duration.unwrap() as i64` wraps modulo 2 to the 64,
  modelled exactly by u64ToI64.
- The ntp::request network call is an input of the model: an Option Nat
  carrying the u32 reference seconds on success, none on network failure.
- Each execution of the slow path reads the local clock again at the
  staleness re-check and at the store after a successful fetch, and may
  read chrono::Utc::now() in its fallbacks; these three readings are the
  fields of SlowClocks.
- The tokio RwLock serialises the exclusive sections; a single call is a
  pure function of the cache state it observes, and a group of concurrent
  callers is modelled as the lock-serialised sequence of their sections
  (run_callers below).
-/

namespace TimeAPI

/-! ## Proleptic Gregorian calendar arithmetic (model of the chrono crate) -/

/-- Day count of a proleptic Gregorian civil date, relative to 1970-01-01
(standard era-based civil-from-days correspondence, floor divisions made
explicit). -/
def daysFromCivil (y : Int) (m d : Nat) : Int :=
  let yy : Int := if m ≤ 2 then y - 1 else y
  let era : Int := Int.fdiv yy 400
  let yoe : Int := yy - era * 400
  let mp : Int := if 2 < m then (m : Int) - 3 else (m : Int) + 9
  let doy : Int := Int.ediv (153 * mp + 2) 5 + (d : Int) - 1
  let doe : Int := yoe * 365 + Int.ediv yoe 4 - Int.ediv yoe 100 + doy
  era * 146097 + doe - 719468

/-- Inverse of daysFromCivil: the civil date (year, month, day) of a day
count relative to 1970-01-01. -/
def civilFromDays (z0 : Int) : Int × Nat × Nat :=
  let z : Int := z0 + 719468
  let era : Int := Int.fdiv z 146097
  let doe : Int := z - era * 146097
  let yoe : Int :=
    Int.ediv (doe - Int.ediv doe 1460 + Int.ediv doe 36524 - Int.ediv doe 146096) 365
  let y : Int := yoe + era * 400
  let doy : Int := doe - (365 * yoe + Int.ediv yoe 4 - Int.ediv yoe 100)
  let mp : Int := Int.ediv (5 * doy + 2) 153
  let d : Int := doy - Int.ediv (153 * mp + 2) 5 + 1
  let m : Int := if mp < 10 then mp + 3 else mp - 9
  (if m ≤ 2 then y + 1 else y, m.toNat, d.toNat)

/-- Gregorian leap-year rule. -/
def isLeapYear (y : Int) : Bool :=
  Int.emod y 4 == 0 && (Int.emod y 100 != 0 || Int.emod y 400 == 0)

/-- Length of a month in the proleptic Gregorian calendar. -/
def daysInMonth (y : Int) (m : Nat) : Nat :=
  if m = 2 then (if isLeapYear y then 29 else 28)
  else if m = 4 ∨ m = 6 ∨ m = 9 ∨ m = 11 then 30 else 31

/-- Smallest timestamp representable by chrono DateTime(Utc):
-262143-01-01T00:00:00Z. -/
def minTs : Int := 86400 * daysFromCivil (-262143) 1 1

/-- Largest whole-second timestamp representable by chrono DateTime(Utc):
+262142-12-31T23:59:59Z. -/
def maxTs : Int := 86400 * daysFromCivil 262142 12 31 + 86399

/-- Model of chrono Utc.timestamp_opt(sec as i64, 0).single(): for the Utc
zone the mapping is unambiguous, so the result is the timestamp itself when
it is representable and none otherwise (main.rs lines 88-91). -/
def timestamp_opt (sec : Nat) : Option Int :=
  if minTs ≤ (sec : Int) ∧ (sec : Int) ≤ maxTs then some ((sec : Int)) else none

/-- Model of chrono DateTime::checked_sub_months (main.rs line 92): split the
timestamp into civil date and second-of-day, shift the month count with
floor semantics, clamp the day-of-month to the target month length, and fail
when the result is not representable. -/
def checked_sub_months (months : Nat) (ts : Int) : Option Int :=
  let days := Int.fdiv ts 86400
  let sod := ts - 86400 * days
  let y := (civilFromDays days).1
  let m := (civilFromDays days).2.1
  let d := (civilFromDays days).2.2
  let total : Int := y * 12 + ((m : Int) - 1) - (months : Int)
  let y2 : Int := Int.fdiv total 12
  let m2 : Nat := (total - 12 * y2).toNat + 1
  let d2 : Nat := min d (daysInMonth y2 m2)
  let ts2 : Int := 86400 * daysFromCivil y2 m2 d2 + sod
  if minTs ≤ ts2 ∧ ts2 ≤ maxTs then some ts2 else none

/-! ## TimeSource: get_time_from_ntp (main.rs lines 79-95) -/

/-- The three error values of get_time_from_ntp, one per distinct format
string in the source: connection failure (line 82), no single calendar
instant for the reported count (line 91), epoch-correction failure
(line 93). -/
inductive NtpErr where
  | connection : NtpErr
  | singleTime : Nat → NtpErr
  | adjust : Nat → NtpErr
deriving DecidableEq

/-- Model of get_time_from_ntp (main.rs lines 79-95).  The input is the
outcome of ntp::request: none for a network failure, some sec for a reply
whose ref_time.sec field is the u32 reference-seconds count.  The reply is
interpreted as a timestamp and then shifted back by Months::new(70 * 12). -/
def get_time_from_ntp (resp : Option Nat) : Except NtpErr Int :=
  match resp with
  | none => Except.error NtpErr.connection
  | some sec =>
    match timestamp_opt sec with
    | none => Except.error (NtpErr.singleTime sec)
    | some t =>
      match checked_sub_months (70 * 12) t with
      | none => Except.error (NtpErr.adjust sec)
      | some t2 => Except.ok t2

/-! ## TimeCache state (main.rs lines 24-33) -/

/-- struct TimeCache: the authoritative instant last fetched (last_ntp, a
DateTime(Utc) timestamp) and the local clock reading taken when it was
stored (last_updated, a SystemTime in whole seconds). -/
structure TimeCache where
  last_ntp : Int
  last_updated : Nat
deriving DecidableEq

/-- The part of struct AppContext the cache logic reads: cache_timeout in
seconds (u64).  The ntp_server address only feeds ntp::request, which the
model abstracts as the fetch-outcome input. -/
structure AppContext where
  cache_timeout : Nat
deriving DecidableEq

/-- Rust cast `x as i64` applied to a u64 value: two-complement wrap. -/
def u64ToI64 (x : Nat) : Int :=
  if x % 2 ^ 64 < 2 ^ 63 then ((x % 2 ^ 64 : Nat) : Int)
  else ((x % 2 ^ 64 : Nat) : Int) - 2 ^ 64

/-- Model of chrono DateTime::checked_add_signed with a whole-second
TimeDelta (main.rs lines 67-69 and 120-122): the sum when representable,
none otherwise. -/
def checked_add_signed (t delta : Int) : Option Int :=
  if minTs ≤ t + delta ∧ t + delta ≤ maxTs then some (t + delta) else none

/-- The local-clock readings a single slow-path execution can take:
SystemTime::now() at the staleness re-check (line 104), SystemTime::now()
when storing a fetched value (lines 117 and 137), and chrono::Utc::now()
used by the two fallbacks (lines 123 and 141). -/
structure SlowClocks where
  now_check : Nat
  now_store : Nat
  utc_now : Int
deriving DecidableEq

/-- Model of fast_get_time_from_cache (main.rs lines 52-77), taking the
SystemTime::now() reading of line 58 as the argument now.  duration_since
succeeds exactly when the reading is not before last_updated; the cache is
fresh when the elapsed whole seconds are below cache_timeout; the returned
instant is last_ntp plus the elapsed seconds via checked_add_signed. -/
def fast_get_time_from_cache (ctx : AppContext) (cache : Option TimeCache) (now : Nat) :
    Option Int :=
  match cache with
  | none => none
  | some time =>
    if time.last_updated ≤ now ∧ now - time.last_updated < ctx.cache_timeout then
      checked_add_signed time.last_ntp (u64ToI64 (now - time.last_updated))
    else none

/-- Model of update_and_return_new_time (main.rs lines 97-143).  The result
triple is the cache slot after the call, the returned DateTime(Utc), and the
number of ntp::request invocations the call performed. -/
def update_and_return_new_time (ctx : AppContext) (cache : Option TimeCache)
    (ntp : Except NtpErr Int) (c : SlowClocks) : Option TimeCache × Int × Nat :=
  match cache with
  | some time =>
    if time.last_updated ≤ c.now_check ∧
        ctx.cache_timeout ≤ c.now_check - time.last_updated then
      match ntp with
      | Except.ok val => (some ⟨val, c.now_store⟩, val, 1)
      | Except.error _ =>
        (some time,
          (checked_add_signed time.last_ntp
            (u64ToI64 (c.now_check - time.last_updated))).getD c.utc_now,
          1)
    else (some time, time.last_ntp, 0)
  | none =>
    match ntp with
    | Except.ok val => (some ⟨val, c.now_store⟩, val, 1)
    | Except.error _ => (none, c.utc_now, 1)

/-- Model of get_time (main.rs lines 45-50): the fast shared-access path,
falling back to the exclusive-access slow path. -/
def get_time (ctx : AppContext) (cache : Option TimeCache) (now_fast : Nat)
    (ntp : Except NtpErr Int) (c : SlowClocks) : Option TimeCache × Int × Nat :=
  match fast_get_time_from_cache ctx cache now_fast with
  | some val => (cache, val, 0)
  | none => update_and_return_new_time ctx cache ntp c

/-! ## Lock-serialised execution of several callers -/

/-- One caller in a lock-serialised schedule.  fast_read_missed records that
the caller took its shared-access read against an earlier (stale) snapshot
of the slot and therefore proceeds directly to the exclusive section; a
caller with fast_read_missed = false runs both phases against the state it
observes. -/
structure CallerStep where
  now_fast : Nat
  ntp : Except NtpErr Int
  clocks : SlowClocks
  fast_read_missed : Bool

/-- Execute one caller against the current slot state. -/
def caller_exec (ctx : AppContext) (cache : Option TimeCache) (s : CallerStep) :
    Option TimeCache × Int × Nat :=
  if s.fast_read_missed then update_and_return_new_time ctx cache s.ntp s.clocks
  else get_time ctx cache s.now_fast s.ntp s.clocks

/-- Run a sequence of callers through the lock in order, threading the slot
state, collecting the returned instants and the total fetch count. -/
def run_callers (ctx : AppContext) : Option TimeCache → List CallerStep →
    Option TimeCache × List Int × Nat
  | cache, [] => (cache, [], 0)
  | cache, s :: rest =>
    let r := caller_exec ctx cache s
    let q := run_callers ctx r.1 rest
    (q.1, r.2.1 :: q.2.1, r.2.2 + q.2.2)

/-- Conditions under which a caller arriving after a refresh that stored
val at local time t3 completes without fetching: a caller that re-checks
under exclusive access must see the reading fresh, and a caller whose
shared-access read succeeds must find it fresh and representable. -/
def fresh_caller (ctx : AppContext) (val : Int) (t3 : Nat) (s : CallerStep) : Prop :=
  (s.fast_read_missed = true →
    t3 ≤ s.clocks.now_check ∧ s.clocks.now_check - t3 < ctx.cache_timeout)
  ∧ (s.fast_read_missed = false →
    t3 ≤ s.now_fast ∧ s.now_fast - t3 < ctx.cache_timeout
      ∧ s.now_fast - t3 < 2 ^ 63
      ∧ minTs ≤ val + ((s.now_fast - t3 : Nat) : Int)
      ∧ val + ((s.now_fast - t3 : Nat) : Int) ≤ maxTs)

instance (ctx : AppContext) (val : Int) (t3 : Nat) (s : CallerStep) :
    Decidable (fresh_caller ctx val t3 s) := by
  unfold fresh_caller
  exact inferInstance

/-! ## Basic lemmas about the embedded operations -/

theorem u64ToI64_small (x : Nat) (h : x < 2 ^ 63) : u64ToI64 x = (x : Int) := by
  have hx : x % 2 ^ 64 = x := Nat.mod_eq_of_lt (lt_trans h (by norm_num))
  simp only [u64ToI64, hx]
  rw [if_pos h]

theorem checked_add_some (t d : Int) (h1 : minTs ≤ t + d) (h2 : t + d ≤ maxTs) :
    checked_add_signed t d = some (t + d) := by
  simp only [checked_add_signed]
  rw [if_pos (And.intro h1 h2)]

theorem fast_hit (ctx : AppContext) (tc : TimeCache) (now : Nat)
    (h0 : tc.last_updated ≤ now) (h1 : now - tc.last_updated < ctx.cache_timeout)
    (h2 : now - tc.last_updated < 2 ^ 63)
    (h3 : minTs ≤ tc.last_ntp + ((now - tc.last_updated : Nat) : Int))
    (h4 : tc.last_ntp + ((now - tc.last_updated : Nat) : Int) ≤ maxTs) :
    fast_get_time_from_cache ctx (some tc) now
      = some (tc.last_ntp + ((now - tc.last_updated : Nat) : Int)) := by
  simp only [fast_get_time_from_cache]
  rw [if_pos (And.intro h0 h1), u64ToI64_small _ h2, checked_add_some _ _ h3 h4]

theorem fast_not_fresh (ctx : AppContext) (tc : TimeCache) (now : Nat)
    (h : ¬ (tc.last_updated ≤ now ∧ now - tc.last_updated < ctx.cache_timeout)) :
    fast_get_time_from_cache ctx (some tc) now = none := by
  simp only [fast_get_time_from_cache]
  rw [if_neg h]

theorem slow_fresh_raw (ctx : AppContext) (tc : TimeCache) (ntp : Except NtpErr Int)
    (c : SlowClocks)
    (h : ¬ (tc.last_updated ≤ c.now_check ∧
        ctx.cache_timeout ≤ c.now_check - tc.last_updated)) :
    update_and_return_new_time ctx (some tc) ntp c = (some tc, tc.last_ntp, 0) := by
  simp only [update_and_return_new_time]
  rw [if_neg h]

theorem slow_stale_ok (ctx : AppContext) (cache : Option TimeCache) (val : Int)
    (c : SlowClocks)
    (h : cache = none ∨ ∃ tc, cache = some tc ∧ tc.last_updated ≤ c.now_check
        ∧ ctx.cache_timeout ≤ c.now_check - tc.last_updated) :
    update_and_return_new_time ctx cache (Except.ok val) c
      = (some ⟨val, c.now_store⟩, val, 1) := by
  rcases h with rfl | ⟨tc, rfl, h1, h2⟩
  · rfl
  · simp only [update_and_return_new_time]
    rw [if_pos (And.intro h1 h2)]

theorem slow_stale_err (ctx : AppContext) (tc : TimeCache) (e : NtpErr) (c : SlowClocks)
    (h1 : tc.last_updated ≤ c.now_check)
    (h2 : ctx.cache_timeout ≤ c.now_check - tc.last_updated)
    (h3 : c.now_check - tc.last_updated < 2 ^ 63)
    (h4 : minTs ≤ tc.last_ntp + ((c.now_check - tc.last_updated : Nat) : Int))
    (h5 : tc.last_ntp + ((c.now_check - tc.last_updated : Nat) : Int) ≤ maxTs) :
    update_and_return_new_time ctx (some tc) (Except.error e) c
      = (some tc, tc.last_ntp + ((c.now_check - tc.last_updated : Nat) : Int), 1) := by
  simp only [update_and_return_new_time]
  rw [if_pos (And.intro h1 h2)]
  simp only [u64ToI64_small _ h3, checked_add_some _ _ h4 h5, Option.getD_some]

theorem checked_sub_months_bounds (months : Nat) (ts v : Int)
    (h : checked_sub_months months ts = some v) : minTs ≤ v ∧ v ≤ maxTs := by
  simp only [checked_sub_months] at h
  split at h
  · cases h
    assumption
  · cases h

/-! ## Claims -/

/-- C1: the claim states that with an empty cache slot and a failing fetch,
get_time returns an error of kind NoCachedValue and never silently
substitutes the local system clock.  The code does the opposite: get_time
has no error channel at all (it returns a plain DateTime), and in the
empty-cache fetch-failure branch (main.rs line 141) it returns
chrono::Utc::now(), the local system clock.  This theorem evaluates the
embedded code at such a failing input: the cache stays empty, the fetch was
attempted once, and the returned instant is exactly the local clock reading
1234567890 supplied as utc_now. -/
theorem C1_empty_cache_fetch_failure_returns_local_clock :
    get_time ⟨300⟩ none 1000 (Except.error NtpErr.connection) ⟨1000, 1000, 1234567890⟩
      = (none, 1234567890, 1) := by
  decide

/-- C2 counterexample: the claim states that every get_time result derived
from an already-cached reading is the extrapolation last_ntp plus elapsed,
never the raw cached instant, including the slow-path case where the
exclusive-access re-check finds the reading fresh again because another
caller refreshed it.  At this input the exclusive section runs against a
reading refreshed 50 seconds ago (last_updated 100, re-check clock 150,
timeout 300): the code returns the raw cached instant 1717200000 with no
fetch, while the claimed extrapolation would be 1717200000 + 50. -/
theorem C2_slow_fresh_returns_raw_counterexample :
    update_and_return_new_time ⟨300⟩ (some ⟨1717200000, 100⟩) (Except.ok 9999)
        ⟨150, 150, 0⟩
      = (some ⟨1717200000, 100⟩, 1717200000, 0)
    ∧ (1717200000 : Int) ≠ 1717200000 + ((150 - 100 : Nat) : Int) := by
  constructor
  · decide
  · decide

/-- C2 amended: results derived from a cached reading are extrapolated on
the fast path and on the fetch-failure fallback, but when the slow path
re-checks under exclusive access and finds the reading fresh (as when
another caller refreshed it while this caller waited for the write lock),
get_time returns the raw cached authoritative instant with no extrapolation
and performs no fetch. -/
theorem C2_slow_fresh_returns_raw (ctx : AppContext) (tc : TimeCache)
    (ntp : Except NtpErr Int) (c : SlowClocks)
    (h1 : tc.last_updated ≤ c.now_check)
    (h2 : c.now_check - tc.last_updated < ctx.cache_timeout) :
    update_and_return_new_time ctx (some tc) ntp c = (some tc, tc.last_ntp, 0) := by
  exact slow_fresh_raw ctx tc ntp c (fun hc => absurd hc.2 (by omega))

theorem C2_slow_fresh_returns_raw_witness :
    update_and_return_new_time ⟨300⟩ (some ⟨100, 50⟩) (Except.ok 999) ⟨60, 60, 0⟩
      = (some ⟨100, 50⟩, 100, 0) :=
  C2_slow_fresh_returns_raw ⟨300⟩ ⟨100, 50⟩ (Except.ok 999) ⟨60, 60, 0⟩
    (by decide) (by decide)

/-- C3: if a reading is stored at local time T0 and get_time runs its
shared-access read at local time T1 with T1 - T0 below cache_timeout, the
call returns exactly last_ntp + (T1 - T0) at whole-second resolution, the
slot is untouched and the time source is not invoked (fetch count 0).  The
side conditions require the elapsed seconds to fit an i64 and the
extrapolated instant to be representable as a chrono DateTime; otherwise
the cast or checked_add_signed of the source could not return this sum. -/
theorem C3_fresh_cache_extrapolates (ctx : AppContext) (a : Int) (T0 T1 : Nat)
    (ntp : Except NtpErr Int) (c : SlowClocks)
    (h0 : T0 ≤ T1) (h1 : T1 - T0 < ctx.cache_timeout) (h2 : T1 - T0 < 2 ^ 63)
    (h3 : minTs ≤ a + ((T1 - T0 : Nat) : Int)) (h4 : a + ((T1 - T0 : Nat) : Int) ≤ maxTs) :
    get_time ctx (some ⟨a, T0⟩) T1 ntp c
      = (some ⟨a, T0⟩, a + ((T1 - T0 : Nat) : Int), 0) := by
  have hf := fast_hit ctx ⟨a, T0⟩ T1 h0 h1 h2 h3 h4
  simp only [get_time, hf]

theorem C3_fresh_cache_extrapolates_witness :
    get_time ⟨300⟩ (some ⟨1717200000, 100⟩) 103 (Except.error NtpErr.connection)
        ⟨103, 103, 0⟩
      = (some ⟨1717200000, 100⟩, 1717200003, 0) := by
  have h := C3_fresh_cache_extrapolates ⟨300⟩ 1717200000 100 103
    (Except.error NtpErr.connection) ⟨103, 103, 0⟩
    (by decide) (by decide) (by decide) (by decide) (by decide)
  simpa using h

/-- C4: get_time_from_ntp interprets the u32 reference count as seconds
since a fixed epoch and shifts it back by the fixed 70-year (840-month)
epoch offset.  For the reference count equal to the seconds-since-1900
value of 2024-06-01T00:00:00Z, written as its Unix timestamp 1717200000
plus the 70-year offset 2208988800 seconds, the adapter yields exactly
2024-06-01T00:00:00Z, that is Unix timestamp 1717200000. -/
theorem C4_epoch_correction :
    get_time_from_ntp (some (1717200000 + 2208988800)) = Except.ok 1717200000 := by
  rfl

/-- C5: under exclusive access, if the slot is empty or the cached reading
is at least cache_timeout old, the call invokes the time source exactly
once (fetch count 1 whatever the fetch outcome, so never twice and never an
internal retry), and on success it overwrites the single slot with the new
authoritative instant paired with the fresh local-clock reading now_store
taken at the store, and returns the new instant raw, without
extrapolation. -/
theorem C5_stale_refresh_fetches_once (ctx : AppContext) (cache : Option TimeCache)
    (ntp : Except NtpErr Int) (val : Int) (c : SlowClocks)
    (h : cache = none ∨ ∃ tc, cache = some tc ∧ tc.last_updated ≤ c.now_check
        ∧ ctx.cache_timeout ≤ c.now_check - tc.last_updated) :
    (update_and_return_new_time ctx cache ntp c).2.2 = 1
    ∧ update_and_return_new_time ctx cache (Except.ok val) c
        = (some ⟨val, c.now_store⟩, val, 1) := by
  constructor
  · rcases h with rfl | ⟨tc, rfl, h1, h2⟩
    · cases ntp <;> rfl
    · simp only [update_and_return_new_time]
      rw [if_pos (And.intro h1 h2)]
      cases ntp <;> rfl
  · exact slow_stale_ok ctx cache val c h

theorem C5_stale_refresh_fetches_once_witness :
    (update_and_return_new_time ⟨300⟩ (some ⟨100, 0⟩) (Except.error NtpErr.connection)
        ⟨300, 400, 7⟩).2.2 = 1
    ∧ update_and_return_new_time ⟨300⟩ (some ⟨100, 0⟩) (Except.ok 555) ⟨300, 400, 7⟩
        = (some ⟨555, 400⟩, 555, 1) :=
  C5_stale_refresh_fetches_once ⟨300⟩ (some ⟨100, 0⟩) (Except.error NtpErr.connection)
    555 ⟨300, 400, 7⟩ (Or.inr ⟨⟨100, 0⟩, rfl, by decide, by decide⟩)

/-- C6: when the cache holds a stale reading (age at least cache_timeout)
and the refresh fetch fails, get_time still returns a value and not an
error: the extrapolation last_ntp plus the elapsed seconds measured at the
exclusive-access re-check, with the slot left untouched.  The return type
of the embedded get_time carries no error at all, so the conclusion also
exhibits the exact value returned.  The side conditions keep the elapsed
seconds within i64 range and the extrapolated instant representable. -/
theorem C6_stale_fetch_failure_falls_back (ctx : AppContext) (tc : TimeCache)
    (e : NtpErr) (nf : Nat) (c : SlowClocks)
    (hf0 : tc.last_updated ≤ nf) (hf1 : ctx.cache_timeout ≤ nf - tc.last_updated)
    (h1 : tc.last_updated ≤ c.now_check)
    (h2 : ctx.cache_timeout ≤ c.now_check - tc.last_updated)
    (h3 : c.now_check - tc.last_updated < 2 ^ 63)
    (h4 : minTs ≤ tc.last_ntp + ((c.now_check - tc.last_updated : Nat) : Int))
    (h5 : tc.last_ntp + ((c.now_check - tc.last_updated : Nat) : Int) ≤ maxTs) :
    get_time ctx (some tc) nf (Except.error e) c
      = (some tc, tc.last_ntp + ((c.now_check - tc.last_updated : Nat) : Int), 1) := by
  have hmiss := fast_not_fresh ctx tc nf (fun hc => absurd hc.2 (by omega))
  simp only [get_time, hmiss]
  exact slow_stale_err ctx tc e c h1 h2 h3 h4 h5

theorem C6_stale_fetch_failure_falls_back_witness :
    get_time ⟨300⟩ (some ⟨100, 0⟩) 300 (Except.error NtpErr.connection) ⟨305, 0, 42⟩
      = (some ⟨100, 0⟩, 405, 1) := by
  have h := C6_stale_fetch_failure_falls_back ⟨300⟩ ⟨100, 0⟩ NtpErr.connection 300
    ⟨305, 0, 42⟩ (by decide) (by decide) (by decide) (by decide) (by decide)
    (by decide) (by decide)
  simpa using h

/-- C8: extrapolation never runs backward.  For any get_time call whose
result is derived from the cached reading, that is any call in which the
fetch does not succeed (it fails, or the fast path already answered), the
returned instant is at least the cached last_ntp.  In particular when the
local clock reading sits behind last_updated (clock skew), duration_since
errs in both paths, the code skips the refresh and returns the raw cached
instant, which is the elapsed-time-clamped-to-zero behaviour the claim
allows.  Side conditions keep the elapsed counts within i64 range and the
stale-fallback extrapolation representable. -/
theorem C8_never_backward (ctx : AppContext) (tc : TimeCache) (nf : Nat)
    (ntp : Except NtpErr Int) (c : SlowClocks)
    (hc : (∃ e, ntp = Except.error e) ∨ fast_get_time_from_cache ctx (some tc) nf ≠ none)
    (h1 : nf - tc.last_updated < 2 ^ 63)
    (h2 : c.now_check - tc.last_updated < 2 ^ 63)
    (h3 : minTs ≤ tc.last_ntp)
    (h4 : tc.last_ntp + ((c.now_check - tc.last_updated : Nat) : Int) ≤ maxTs) :
    tc.last_ntp ≤ (get_time ctx (some tc) nf ntp c).2.1 := by
  cases hfast : fast_get_time_from_cache ctx (some tc) nf with
  | some v =>
    have hv : v = tc.last_ntp + ((nf - tc.last_updated : Nat) : Int) := by
      simp only [fast_get_time_from_cache] at hfast
      split at hfast
      · rw [u64ToI64_small _ h1] at hfast
        simp only [checked_add_signed] at hfast
        split at hfast
        · exact (Option.some.inj hfast).symm
        · cases hfast
      · cases hfast
    simp only [get_time, hfast]
    rw [hv]
    omega
  | none =>
    rcases hc with ⟨e, rfl⟩ | hne
    · simp only [get_time, hfast]
      by_cases hcond : tc.last_updated ≤ c.now_check ∧
          ctx.cache_timeout ≤ c.now_check - tc.last_updated
      · have h4a : minTs ≤ tc.last_ntp + ((c.now_check - tc.last_updated : Nat) : Int) :=
          le_trans h3 (by omega)
        rw [slow_stale_err ctx tc e c hcond.1 hcond.2 h2 h4a h4]
        exact le_add_of_nonneg_right (Int.natCast_nonneg _)
      · rw [slow_fresh_raw ctx tc (Except.error e) c hcond]
    · exact absurd hfast hne

theorem C8_never_backward_witness :
    (100 : Int) ≤ (get_time ⟨300⟩ (some ⟨100, 50⟩) 49 (Except.error NtpErr.connection)
      ⟨60, 0, 0⟩).2.1 := by
  have h := C8_never_backward ⟨300⟩ ⟨100, 50⟩ 49 (Except.error NtpErr.connection)
    ⟨60, 0, 0⟩ (Or.inl ⟨NtpErr.connection, rfl⟩) (by decide) (by decide) (by decide)
    (by decide)
  simpa using h

/-- C7: get_time_from_ntp fails exactly under three conditions, each mapped
to a distinct error value, and in every other case returns a representable
calendar instant.  The first conjunct characterises the result: a network
failure (input none) yields the connection error; on a reply the call errs
precisely when the reference count has no single calendar instant (mapped
to singleTime) or the 840-month epoch correction fails (mapped to adjust),
and otherwise returns the corrected instant, which lies within the
representable range.  The second conjunct states that the three error
values are pairwise distinct. -/
theorem C7_fetch_failure_conditions (resp : Option Nat) :
    (match resp, get_time_from_ntp resp with
      | none, r => r = Except.error NtpErr.connection
      | some s, Except.error e =>
          (timestamp_opt s = none ∧ e = NtpErr.singleTime s) ∨
          (∃ t, timestamp_opt s = some t ∧ checked_sub_months (70 * 12) t = none
            ∧ e = NtpErr.adjust s)
      | some s, Except.ok v =>
          ∃ t, timestamp_opt s = some t ∧ checked_sub_months (70 * 12) t = some v
            ∧ minTs ≤ v ∧ v ≤ maxTs)
    ∧ ∀ s u : Nat, NtpErr.connection ≠ NtpErr.singleTime s
        ∧ NtpErr.connection ≠ NtpErr.adjust s
        ∧ NtpErr.singleTime s ≠ NtpErr.adjust u := by
  constructor
  · cases resp with
    | none => rfl
    | some s =>
      cases hts : timestamp_opt s with
      | none =>
        have hr : get_time_from_ntp (some s) = Except.error (NtpErr.singleTime s) := by
          simp [get_time_from_ntp, hts]
        rw [hr]
        exact Or.inl ⟨hts, rfl⟩
      | some t =>
        cases hsub : checked_sub_months (70 * 12) t with
        | none =>
          have hr : get_time_from_ntp (some s) = Except.error (NtpErr.adjust s) := by
            simp [get_time_from_ntp, hts, hsub]
          rw [hr]
          exact Or.inr ⟨t, hts, hsub, rfl⟩
        | some v =>
          have hr : get_time_from_ntp (some s) = Except.ok v := by
            simp [get_time_from_ntp, hts, hsub]
          rw [hr]
          exact ⟨t, hts, hsub, checked_sub_months_bounds _ _ _ hsub⟩
  · intro s u
    refine ⟨fun h => ?_, fun h => ?_, fun h => ?_⟩ <;> cases h

/-- C10: the cache slot only ever holds instants obtained from a successful
fetch.  Whatever state get_time starts from, if the fetch outcome is an
error the slot afterwards is exactly what it was (empty stays empty, a
stale reading stays untouched, and the local-clock fallback value is never
written); if the fetch outcome is ok val, the slot is either unchanged (no
refresh was needed) or holds exactly the fetched val paired with the
local-clock reading now_store taken at the store. -/
theorem C10_cache_only_holds_fetched (ctx : AppContext) (cache : Option TimeCache)
    (nf : Nat) (ntp : Except NtpErr Int) (c : SlowClocks) :
    match ntp with
    | Except.error _ => (get_time ctx cache nf ntp c).1 = cache
    | Except.ok val => (get_time ctx cache nf ntp c).1 = cache
        ∨ (get_time ctx cache nf ntp c).1 = some ⟨val, c.now_store⟩ := by
  cases ntp with
  | error e =>
    cases hfast : fast_get_time_from_cache ctx cache nf with
    | some v => simp only [get_time, hfast]
    | none =>
      simp only [get_time, hfast]
      cases cache with
      | none => rfl
      | some tc =>
        simp only [update_and_return_new_time]
        split
        · rfl
        · rfl
  | ok val =>
    cases hfast : fast_get_time_from_cache ctx cache nf with
    | some v => exact Or.inl (by simp only [get_time, hfast])
    | none =>
      simp only [get_time, hfast]
      cases cache with
      | none => exact Or.inr rfl
      | some tc =>
        simp only [update_and_return_new_time]
        split
        · exact Or.inr rfl
        · exact Or.inl rfl

/-- After a refresh stored val at local time t3, every caller satisfying
fresh_caller completes without fetching: a caller entering the exclusive
section directly sees the reading fresh at the re-check and gets the raw
val, and a caller whose shared read succeeds gets the extrapolated val. -/
theorem run_callers_fresh (ctx : AppContext) (val : Int) (t3 : Nat) :
    ∀ rest : List CallerStep, (∀ s ∈ rest, fresh_caller ctx val t3 s) →
      run_callers ctx (some ⟨val, t3⟩) rest
        = (some ⟨val, t3⟩,
           rest.map (fun s =>
             if s.fast_read_missed then val
             else val + ((s.now_fast - t3 : Nat) : Int)),
           0)
  | [], _ => by simp [run_callers]
  | s :: rest, h => by
    have hs := h s (List.mem_cons_self s rest)
    have hstep : caller_exec ctx (some ⟨val, t3⟩) s
        = (some ⟨val, t3⟩,
           (if s.fast_read_missed then val else val + ((s.now_fast - t3 : Nat) : Int)),
           0) := by
      cases hb : s.fast_read_missed with
      | true =>
        have hfresh := hs.1 hb
        simp only [caller_exec, hb, if_true]
        rw [slow_fresh_raw ctx ⟨val, t3⟩ s.ntp s.clocks
          (fun hcon => absurd (show ctx.cache_timeout ≤ s.clocks.now_check - t3 from hcon.2)
            (by omega))]
      | false =>
        have hfast := hs.2 hb
        have hhit := fast_hit ctx ⟨val, t3⟩ s.now_fast hfast.1 hfast.2.1 hfast.2.2.1
          hfast.2.2.2.1 hfast.2.2.2.2
        simp only [caller_exec, hb, get_time, hhit]
        simp
    have ih := run_callers_fresh ctx val t3 rest
      (fun x hx => h x (List.mem_cons_of_mem s hx))
    simp only [run_callers, hstep, ih, List.map_cons]

/-- C9: single-flight.  A staleness episode handled through the write lock:
the first caller reaches the exclusive section with the slot empty or
holding a reading at least cache_timeout old, fetches val, stores it at
local time now_store and returns it; every further caller of the episode,
whether it re-checks under exclusive access (after its shared read saw the
stale snapshot) or takes the fast path against the refreshed slot, performs
no fetch, so the whole group makes exactly one call to the time source, and
every caller completes with a value derived from that one fetch: val
itself, or val extrapolated by the seconds elapsed since now_store. -/
theorem C9_single_flight (ctx : AppContext) (cache0 : Option TimeCache)
    (s0 : CallerStep) (val : Int) (rest : List CallerStep)
    (hmiss : s0.fast_read_missed = true)
    (hok : s0.ntp = Except.ok val)
    (hstale : cache0 = none ∨ ∃ tc, cache0 = some tc
        ∧ tc.last_updated ≤ s0.clocks.now_check
        ∧ ctx.cache_timeout ≤ s0.clocks.now_check - tc.last_updated)
    (hrest : ∀ s ∈ rest, fresh_caller ctx val s0.clocks.now_store s) :
    run_callers ctx cache0 (s0 :: rest)
      = (some ⟨val, s0.clocks.now_store⟩,
         val :: rest.map (fun s =>
           if s.fast_read_missed then val
           else val + ((s.now_fast - s0.clocks.now_store : Nat) : Int)),
         1) := by
  have h0exec : caller_exec ctx cache0 s0
      = (some ⟨val, s0.clocks.now_store⟩, val, 1) := by
    simp only [caller_exec, hmiss, if_true, hok]
    exact slow_stale_ok ctx cache0 val s0.clocks hstale
  have hrun := run_callers_fresh ctx val s0.clocks.now_store rest hrest
  simp only [run_callers, h0exec, hrun]

theorem C9_single_flight_witness :
    run_callers ⟨300⟩ none
      (⟨0, Except.ok 1000, ⟨400, 400, 0⟩, true⟩ ::
        ⟨0, Except.ok 2000, ⟨450, 450, 0⟩, true⟩ ::
        ⟨500, Except.error NtpErr.connection, ⟨500, 500, 0⟩, false⟩ :: [])
      = (some ⟨1000, 400⟩, 1000 :: 1000 :: 1100 :: [], 1) := by
  have h := C9_single_flight ⟨300⟩ none ⟨0, Except.ok 1000, ⟨400, 400, 0⟩, true⟩ 1000
    (⟨0, Except.ok 2000, ⟨450, 450, 0⟩, true⟩ ::
      ⟨500, Except.error NtpErr.connection, ⟨500, 500, 0⟩, false⟩ :: [])
    rfl rfl (Or.inl rfl) (by decide)
  simpa using h

end TimeAPI
